import Mathlib

/-!
# ZeusWPI/scc: the song view, the zess view, the lyric source and the periodic worker

A shallow embedding of

* `internal/pkg/lyrics/lyrics.go`  (`Lyric`, the `Lyrics` interface, `New`),
* `ui/view/song/song.go`           (`playing`, `Model`, `Model.Update`, `updateLyrics`,
                                    `updateCurrentSong`),
* `ui/view/zess.go`                (`ZessModel.Update`, `updateScans`, `updateSeason`),
* `internal/cmd/gamification.go`   (`gamificationPeriodicUpdate`),

followed by the theorems about them.

Conventions.

* A Go pointer or interface value that may be nil is an `Option`; using it while nil is
  the runtime fault `Fault.nilDereference`.
* A `time.Time` is the instant it denotes, an `Int` count of nanoseconds from the zero
  time; a `time.Duration` and an `int64` are an `Int`, and where the code computes with
  them in 64 bits the result is wrapped (`wrap64`) or saturated (`time.Sub`). Adding a
  duration to an instant is exact over the range of `time.Time`.
* A handler reads the wall clock through the argument `now`: all readings taken while
  one handler runs return that instant.
* A `tea.Cmd` is a value of `Cmd`: the closure returned by `updateLyrics` is the
  constructor `Cmd.tick`, and what the closure does when it runs is `updateLyricsTick`.
* The lyric source is a Go object shared by reference between the view and the timer
  closures. The embedding passes its state: `Model.Update` and `updateLyricsTick` take
  the state of the object from the `playing` value they are given and return the state
  they leave it in (`Step.source`, and the second component of the result of the
  callback). Whoever chains steps puts the state returned into the `playing` values
  that share the object.
* The `for` loop of the catch-up is a function with a step budget (`fuel`); running out
  of budget is the distinguished result `Fault.outOfFuel`, and the theorems show that a
  budget above the number of remaining lines is never exhausted.
-/

namespace time

/-- The largest `time.Duration`. -/
def maxDuration : Int := 2 ^ 63 - 1

/-- The smallest `time.Duration`. -/
def minDuration : Int := -(2 ^ 63)

/-- The method `t.Sub(u)`: the difference of two instants, saturated to the range of a
duration. -/
def Sub (t u : Int) : Int :=
  if t - u > maxDuration then maxDuration
  else if t - u < minDuration then minDuration
  else t - u

/-- The method `t.Truncate(d)`: `t` rounded down to a multiple of `d` (counted from the
zero time, as instants are); `t` itself when `d <= 0`. -/
def Truncate (t : Int) (d : Int) : Int :=
  if d ≤ 0 then t else t - t % d

/-- The constant `time.Hour`. -/
def Hour : Int := 3600 * 1000000000

/-- The constant `time.Second`. -/
def Second : Int := 1000000000

end time

/-- The ways a handler can fail to return: a Go runtime fault, or the step budget of the
embedding running out. -/
inductive Fault where
  | nilDereference
  | outOfFuel
deriving DecidableEq

/-- Use of a pointer or interface value: a fault when it is nil. -/
def deref {α : Type} : Option α → Except Fault α
  | some a => .ok a
  | none => .error .nilDereference

namespace dto

/-- Modelled from the spec: the declaration of `dto.Song` is outside the sources; the
spec describes a Track by its identity, title, duration, start timestamp and lyric-source
kind, and these are the fields the code under study reads. -/
structure Song where
  ID : Int
  Title : String
  DurationMS : Int
  /-- The start timestamp, a `time.Time`. -/
  CreatedAt : Int
  LyricsType : String
deriving DecidableEq

end dto

namespace lyrics

/-- A single lyric line. -/
structure Lyric where
  Text : String
  /-- A `time.Duration`. -/
  Duration : Int
deriving DecidableEq

/-- Modelled from the spec: the object behind the `Lyrics` interface. The two
implementations (synced and plain) are outside the sources; the spec gives both one
contract: an ordered sequence of lines, fixed at construction, and a cursor over it.
`i` is the number of lines `Next` has handed out, so the current line is `lines[i-1]`.
`calls` is a ghost counter of the calls `Next` has received. The object is shared by
reference in Go; here every operation that advances it returns its new state. -/
structure Lyrics where
  lines : List Lyric
  i : Nat
  calls : Nat
deriving DecidableEq

/-- Modelled from the spec: `next()` advances the cursor by one and returns the new
current line; it reports absence, and leaves the cursor where it is, when no lines
remain. -/
def Lyrics.Next (l : Lyrics) : Option Lyric × Lyrics :=
  match l.lines.get? l.i with
  | some x => (some x, { l with i := l.i + 1, calls := l.calls + 1 })
  | none => (none, { l with calls := l.calls + 1 })

/-- Modelled from the spec: `previous(n)` is the `n` most recently passed lines (the lines
before the current one), most recent last, fewer near the start. -/
def Lyrics.Previous (l : Lyrics) (n : Nat) : List Lyric :=
  (l.lines.take (l.i - 1)).drop (l.i - 1 - n)

/-- Modelled from the spec: `upcoming(n)` is the next `n` lines not yet reached, in
order, fewer near the end. -/
def Lyrics.Upcoming (l : Lyrics) (n : Nat) : List Lyric :=
  (l.lines.drop l.i).take n

/-- The lines `Next` has still to hand out. -/
def Lyrics.remaining (l : Lyrics) : List Lyric :=
  l.lines.drop l.i

/-- An interface value together with its dynamic type: what `New` returns is either the
synced implementation or the plain one. -/
inductive Variant (L P : Type) where
  | synced (l : L)
  | plain (p : P)
deriving DecidableEq

/-- The object inside the interface value, when both implementations are modelled by the
same type. -/
def Variant.obj {α : Type} : Variant α α → α
  | .synced l => l
  | .plain p => p

/-- The function `lyrics.New`. The constructors `newLRC` and `newPlain` are outside the sources and
are parameters. -/
def New {L P : Type} (newLRC : dto.Song → L) (newPlain : dto.Song → P) (song : dto.Song) :
    Variant L P :=
  if song.LyricsType = "synced" then
    .synced (newLRC song)
  else
    .plain (newPlain song)

end lyrics

namespace song

open lyrics

/-- Amount of passed lyrics to show. -/
def previousAmount : Nat := 5

/-- Amount of upcoming lyrics to show. -/
def upcomingAmount : Nat := 10

/-- The struct `playing`. The types of the progress bar and of the stopwatch are declared
outside the sources and are the parameters `PM` and `SW`; their Go zero values are
`default`. -/
structure playing (PM SW : Type) where
  song : Option dto.Song
  progress : PM
  stopwatch : SW
  lyrics : Option Lyrics
  previous : List String
  current : String
  upcoming : List String
deriving DecidableEq

/-- The composite literal `playing{song: nil}`: every field has its zero value. -/
def playing.zero {PM SW : Type} [Inhabited PM] [Inhabited SW] : playing PM SW :=
  { song := none, progress := default, stopwatch := default, lyrics := none,
    previous := [], current := "", upcoming := [] }

/-- The struct `topStat`. -/
structure topStat where
  name : String
  amount : Int
deriving DecidableEq

/-- The struct `Model`, without the database handle, which `Update` never touches. -/
structure Model (PM SW : Type) where
  current : playing PM SW
  history : List String
  topSongs : List topStat
  topGenres : List topStat
  topArtists : List topStat
  width : Int
  height : Int
deriving DecidableEq

/-- The struct `msgTop`; a nil slice is `none`. -/
structure msgTop where
  topSongs : Option (List topStat)
  topGenres : Option (List topStat)
  topArtists : Option (List topStat)
deriving DecidableEq

/-- The struct `msgLyrics`. -/
structure msgLyrics where
  song : dto.Song
  previous : List String
  current : String
  upcoming : List String
  startNext : Int
  done : Bool
deriving DecidableEq

/-- The messages `Model.Update` handles with code of its own: `msgPlaying`, `msgTop` and
`msgLyrics`. The cases `view.MsgSize`, `progress.FrameMsg` and the fall-through to the
stopwatch depend on declarations outside the sources and are not embedded. -/
inductive Msg (PM SW : Type) where
  | msgPlaying (current : playing PM SW)
  | msgTop (msg : msgTop)
  | msgLyrics (msg : msgLyrics)
deriving DecidableEq

/-- The commands `Model.Update` returns. `tick timeout song start` is
`tea.Tick(timeout, closure)` as built by `updateLyrics(song, start)`. -/
inductive Cmd (PM SW : Type) where
  | nil
  | stopwatchReset (sw : SW)
  | stopwatchStart (sw : SW) (d : Int)
  | tick (timeout : Int) (song : playing PM SW) (start : Int)
  | batch (a b : Cmd PM SW)
deriving DecidableEq

/-- Modelled from the spec: `lyricsToString` is outside the sources; a line is the pair
of its display text and its duration, and the view keeps the display texts. -/
def lyricsToString (ls : List Lyric) : List String :=
  ls.map (fun l => l.Text)

/-- The function `updateLyrics(song, start)`: the timeout is the time left until `start`, zero when
`start` is not in the future. -/
def updateLyrics {PM SW : Type} (now : Int) (song : playing PM SW) (start : Int) :
    Cmd PM SW :=
  let timeout : Int := if start > now then time.Sub start now else 0
  .tick timeout song start

/-- The closure `updateLyrics(song, start)` hands to `tea.Tick`, run at the instant
`fired` (which it ignores). It returns the message for the render loop and the lyric
source as the call to `Next` left it. -/
def updateLyricsTick {PM SW : Type} (song : playing PM SW) (start : Int)
    (_fired : Int) : Except Fault (msgLyrics × Lyrics) := do
  let ly ← deref song.lyrics
  match ly.Next with
  | (none, ly1) =>
    let s ← deref song.song
    .ok ({ song := s, previous := [], current := "", upcoming := [], startNext := 0,
           done := true }, ly1)
  | (some lyric, ly1) =>
    let previous := ly1.Previous previousAmount
    let upcoming := ly1.Upcoming upcomingAmount
    let s ← deref song.song
    .ok ({ song := s, previous := lyricsToString previous, current := lyric.Text,
           upcoming := lyricsToString upcoming, startNext := start + lyric.Duration, done := false }, ly1)

/-- The loop `for startTime.Before(time.Now())` of the `msgPlaying` case, from the state
in which `ly` is the lyric source and `startTime` the loop variable. The result is the
final `startTime` when the loop ends by its condition, `none` when `Next` reports
absence, together with the lyric source as the loop left it. -/
def catchUp (now : Int) : Nat → Lyrics → Int →
    Except Fault (Option Int × Lyrics)
  | 0, _, _ => .error .outOfFuel
  | fuel + 1, ly, startTime =>
    if startTime < now then
      match ly.Next with
      | (none, ly1) => .ok (none, ly1)
      | (some lyric, ly1) => catchUp now fuel ly1 (startTime + lyric.Duration)
    else
      .ok (some startTime, ly)

/-- What one call of `Model.Update` leaves behind: the model, the command, and the lyric
source the handler advanced (none when the handler touched no lyric source). -/
structure Step (PM SW : Type) where
  model : Model PM SW
  cmd : Cmd PM SW
  source : Option Lyrics
deriving DecidableEq

/-- The history after a new title: appended, the oldest entry dropped beyond five. -/
def pushHistory (history : List String) (title : String) : List String :=
  let history := history ++ [title]
  if history.length > 5 then history.drop 1 else history

/-- The sum of the durations of a list of lines. -/
def totalDuration (ls : List Lyric) : Int :=
  (ls.map (fun l => l.Duration)).sum

/-- The function `NewModel`: the model at construction. `progressNew` and `stopwatchNew` are what
`progress.New()` and `stopwatch.New()` return, `history` what the storage returns for the
song history. No track is current. -/
def NewModel {PM SW : Type} (progressNew : PM) (stopwatchNew : SW) (history : List String) :
    Model PM SW :=
  { current := { song := none, progress := progressNew, stopwatch := stopwatchNew,
                 lyrics := none, previous := [], current := "", upcoming := [] },
    history := history, topSongs := [], topGenres := [], topArtists := [],
    width := 0, height := 0 }

/-- The method `Model.Update`, for the messages of `Msg`. `fuel` is the step budget of the
catch-up loop and `now` the reading of the clock. -/
def Model.Update {PM SW : Type} [Inhabited PM] [Inhabited SW] (fuel : Nat) (now : Int)
    (m : Model PM SW) : Msg PM SW → Except Fault (Step PM SW)
  | .msgPlaying current => do
    let s ← deref current.song
    let m := { m with history := pushHistory m.history s.Title }
    let m := { m with current := current }
    let ly ← deref m.current.lyrics
    match ly.Next with
    | (none, ly1) =>
      let m := { m with current := playing.zero }
      .ok ⟨m, .stopwatchReset m.current.stopwatch, some ly1⟩
    | (some lyric, ly1) =>
      let m := { m with current := { m.current with lyrics := some ly1 } }
      match catchUp now fuel ly1 (s.CreatedAt + lyric.Duration) with
      | .error e => .error e
      | .ok (none, ly2) =>
        let m := { m with current := playing.zero }
        .ok ⟨m, .stopwatchReset m.current.stopwatch, some ly2⟩
      | .ok (some startTime, ly2) =>
        let m := { m with current := { m.current with lyrics := some ly2 } }
        let m := { m with current :=
          { m.current with upcoming := lyricsToString (ly2.Upcoming upcomingAmount) } }
        .ok ⟨m, .batch (updateLyrics now m.current startTime)
                  (.stopwatchStart m.current.stopwatch (time.Sub now s.CreatedAt)),
              some ly2⟩
  | .msgTop msg =>
    let m := match msg.topSongs with
      | some t => { m with topSongs := t }
      | none => m
    let m := match msg.topGenres with
      | some t => { m with topGenres := t }
      | none => m
    let m := match msg.topArtists with
      | some t => { m with topArtists := t }
      | none => m
    .ok ⟨m, .nil, none⟩
  | .msgLyrics msg => do
    let cur ← deref m.current.song
    if msg.song.ID ≠ cur.ID then
      .ok ⟨m, .nil, none⟩
    else if msg.done then
      let m := { m with current := playing.zero }
      .ok ⟨m, .stopwatchReset m.current.stopwatch, none⟩
    else
      let m := { m with current := { m.current with previous := msg.previous } }
      let m := { m with current := { m.current with current := msg.current } }
      let m := { m with current := { m.current with upcoming := msg.upcoming } }
      .ok ⟨m, updateLyrics now m.current msg.startNext, none⟩

end song

namespace sql

/-- The error values a storage query returns: the sentinel `sql.ErrNoRows`, or any other
error. -/
inductive Err where
  | ErrNoRows
  | other (text : String)
deriving DecidableEq

end sql

/-- Two's-complement wrap-around of an `int64` result. -/
def wrap64 (x : Int) : Int :=
  (x + 9223372036854775808) % 18446744073709551616 - 9223372036854775808

namespace sqlc

/-- Modelled from the spec: the row type of `GetLastSongFull` is outside the sources; the
spec lists the columns of the most recent song-history row, of which the poller reads the
ID, the start timestamp and the duration. -/
structure GetLastSongFullRow where
  ID : Int
  Title : String
  DurationMs : Int
  CreatedAt : Int
  LyricsType : String
deriving DecidableEq

/-- Modelled from the spec: the row type of the scan queries is outside the sources; a
scan event has an ID and the time of the scan. -/
structure Scan where
  ID : Int
  ScanTime : Int
deriving DecidableEq

end sqlc

namespace song

/-- The poller `updateCurrentSong`. The storage query and the helper `dto.SongDTOHistory` are outside
the sources: `getLastSongFull` is what the query returned, `songDTOHistory` the helper, and
`newLRC`, `newPlain` the constructors `lyrics.New` chooses between. The result is the pair
(message, error) of the Go function; `none` is nil. -/
def updateCurrentSong {PM SW : Type} [Inhabited PM] [Inhabited SW]
    (getLastSongFull : Except sql.Err (List sqlc.GetLastSongFullRow))
    (songDTOHistory : List sqlc.GetLastSongFullRow → Option dto.Song)
    (newLRC newPlain : dto.Song → lyrics.Lyrics)
    (now : Int) (m : Model PM SW) :
    Except Fault (Option (Msg PM SW) × Option sql.Err) :=
  match getLastSongFull with
  | .error err =>
    .ok (none, if err = sql.Err.ErrNoRows then none else some err)
  | .ok songs =>
    match songs with
    | [] => .ok (none, none)
    | first :: _ =>
      if first.CreatedAt + wrap64 (first.DurationMs * 1000000) < now then
        .ok (none, none)
      else if (match m.current.song with
               | some cur => decide (first.ID = cur.ID)
               | none => false) then
        .ok (none, none)
      else do
        let s ← deref (songDTOHistory songs)
        .ok (some (.msgPlaying { (playing.zero : playing PM SW) with
                song := some s, lyrics := some (lyrics.New newLRC newPlain s).obj }), none)

end song

namespace view

/-- The struct `zessDayScan`. -/
structure zessDayScan where
  /-- A `time.Time`. -/
  date : Int
  /-- An `int64`. -/
  amount : Int
deriving DecidableEq

/-- The struct `ZessModel`, without the database handle. -/
structure ZessModel where
  lastScanID : Int
  scans : List zessDayScan
  totalScans : Int
deriving DecidableEq

/-- The struct `ZessScanMsg`. -/
structure ZessScanMsg where
  lastScanID : Int
  scans : List zessDayScan
deriving DecidableEq

/-- The struct `ZessSeasonMsg`. -/
structure ZessSeasonMsg where
  valid : Bool
  amount : Int
deriving DecidableEq

/-- The messages of the zess view; `other` is any message of another type. -/
inductive Msg where
  | ZessScanMsg (msg : ZessScanMsg)
  | ZessSeasonMsg (msg : ZessSeasonMsg)
  | other
deriving DecidableEq

/-- The inner loop `for i := len(z.scans) - 1; i >= 0; i--` of `ZessModel.Update`, with
`n` the number of indices still to visit (the next index is `n - 1`): the first entry
found with the date of `scan` gets its amount added, and the loop stops. -/
def addToDay (scans : List zessDayScan) (scan : zessDayScan) : Nat → List zessDayScan
  | 0 => scans
  | i + 1 =>
    match scans.get? i with
    | some s =>
      if scan.date = s.date then
        scans.set i { s with amount := wrap64 (s.amount + scan.amount) }
      else
        addToDay scans scan i
    | none => addToDay scans scan i

/-- The body of the loop `for _, scan := range msg.scans` of `ZessModel.Update`. -/
def mergeScan (scans : List zessDayScan) (scan : zessDayScan) : List zessDayScan :=
  match scans.getLast? with
  | none => scans ++ [scan]
  | some last =>
    if scan.date > last.date then
      scans ++ [scan]
    else
      addToDay scans scan scans.length

/-- The method `ZessModel.Update`; the command it returns is nil in every case. -/
def ZessModel.Update (z : ZessModel) : Msg → ZessModel
  | .ZessScanMsg msg =>
    let z := { z with lastScanID := msg.lastScanID }
    { z with scans := msg.scans.foldl mergeScan z.scans }
  | .ZessSeasonMsg msg =>
    if msg.valid then { z with totalScans := msg.amount } else z
  | .other => z

/-- The body of the loop `for _, scan := range scans` of `updateScans`. -/
def countScan (acc : List zessDayScan) (scan : sqlc.Scan) : List zessDayScan :=
  let date := time.Truncate scan.ScanTime (24 * time.Hour)
  match acc.getLast? with
  | some last =>
    if last.date = date then
      acc.dropLast ++ [{ last with amount := wrap64 (last.amount + 1) }]
    else
      acc ++ [{ date := date, amount := 1 }]
  | none => acc ++ [{ date := date, amount := 1 }]

/-- The poller `updateScans`. The storage queries are outside the sources: `getLastScan` is what
`GetLastScan` returned and `getAllScansSinceID` what `GetAllScansSinceID` returns for a
given ID. The result is the pair (message, error) of the Go function; `none` is nil. -/
def updateScans (getLastScan : Except sql.Err sqlc.Scan)
    (getAllScansSinceID : Int → Except sql.Err (List sqlc.Scan)) (z : ZessModel) :
    Option Msg × Option sql.Err :=
  let lastScanID := z.lastScanID
  match getLastScan with
  | .error err =>
    (some (.ZessScanMsg { lastScanID := lastScanID, scans := [] }),
      if err = sql.Err.ErrNoRows then none else some err)
  | .ok scan =>
    if scan.ID ≤ lastScanID then
      (some (.ZessScanMsg { lastScanID := lastScanID, scans := [] }), none)
    else
      match getAllScansSinceID lastScanID with
      | .error err =>
        (some (.ZessScanMsg { lastScanID := lastScanID, scans := [] }), some err)
      | .ok scans =>
        (some (.ZessScanMsg { lastScanID := scan.ID, scans := scans.foldl countScan [] }),
          none)

/-- The poller `updateSeason`; `getScansInCurrentSeason` is what the storage query returned. -/
def updateSeason (getScansInCurrentSeason : Except sql.Err Int) :
    Option Msg × Option sql.Err :=
  match getScansInCurrentSeason with
  | .error err =>
    (some (.ZessSeasonMsg { valid := false, amount := 0 }),
      if err = sql.Err.ErrNoRows then none else some err)
  | .ok amount =>
    (some (.ZessSeasonMsg { valid := true, amount := amount }), none)

/-- The sum of the amounts of a per-day list. -/
def totalAmount (scans : List zessDayScan) : Int :=
  (scans.map (fun s => s.amount)).sum

/-- A per-day list is strictly increasing by date. -/
def increasingByDate (scans : List zessDayScan) : Prop :=
  List.Chain' (fun a b => a.date < b.date) scans

end view

namespace cmd

/-- Which case of the `select` in `gamificationPeriodicUpdate` is taken: the ticker
channel delivered a tick, or the channel `done` delivered the stop signal. -/
inductive Event where
  | tick
  | stop
deriving DecidableEq

/-- Where the worker is: blocked in the `select`, or returned. -/
inductive Phase where
  | waiting
  | exited
deriving DecidableEq

/-- The state of the worker: its phase, the number of calls of `gam.Update` it has made,
and the errors it has logged. -/
structure Worker where
  phase : Phase
  updates : Nat
  logged : List String
deriving DecidableEq

/-- One `gam.Update()` with the logging of its error. `update k` is the error returned by
call number `k` of `gam.Update` (`none` is nil). -/
def runUpdate (update : Nat → Option String) (w : Worker) : Worker :=
  match update w.updates with
  | some err => { w with updates := w.updates + 1, logged := w.logged ++ [err] }
  | none => { w with updates := w.updates + 1 }

/-- The way the worker can fail before it reaches its loop: `time.NewTicker` panics
("non-positive interval for NewTicker") when the duration it is given is not positive. -/
inductive Panic where
  | nonPositiveTickerInterval
deriving DecidableEq

/-- The duration handed to `time.NewTicker`: `time.Duration(interval) * time.Second`, an
`int64` product. -/
def tickerDuration (interval : Int) : Int :=
  wrap64 (interval * time.Second)

/-- The part of `gamificationPeriodicUpdate` before the loop: create the ticker, which
panics when its duration is not positive; then run the update immediately once and wait
in the `select`. -/
def start (update : Nat → Option String) (interval : Int) : Except Panic Worker :=
  if tickerDuration interval ≤ 0 then
    .error .nonPositiveTickerInterval
  else
    .ok (runUpdate update { phase := .waiting, updates := 0, logged := [] })

/-- One pass of the `select`: the stop signal makes the worker return, a tick runs the
update and goes round the loop. A worker that has returned takes no step. -/
def step (update : Nat → Option String) (w : Worker) (e : Event) : Worker :=
  match w.phase, e with
  | .exited, _ => w
  | .waiting, .stop => { w with phase := .exited }
  | .waiting, .tick => runUpdate update w

/-- The worker `gamificationPeriodicUpdate(gam, done, interval)`, run against the sequence
of `select` outcomes `events`. `update k` is the error returned by call number `k` of
`gam.Update`. Only the errors the worker logs are recorded, not its informational log
lines. -/
def gamificationPeriodicUpdate (update : Nat → Option String) (interval : Int)
    (events : List Event) : Except Panic Worker :=
  match start update interval with
  | .error p => .error p
  | .ok w => .ok (events.foldl (step update) w)

end cmd

/-! ## Concrete inputs

The inputs at which the theorems below are instantiated. Instants and durations are in
nanoseconds; the progress bar and the stopwatch carry no state (`Unit`). -/

namespace sample

open song lyrics view

/-- The start instant of the tracks below. -/
def t0 : Int := 1700000000 * time.Second

/-- The song view at construction, with an empty history. -/
def idle : Model Unit Unit := NewModel () () []

/-- A track with ID 1 started at `t0`. -/
def track : dto.Song :=
  { ID := 1, Title := "la la land", DurationMS := 10000, CreatedAt := t0,
    LyricsType := "synced" }

/-- The message `updateCurrentSong` builds for `track` when its lyric source holds
`lines`: only the track and a fresh lyric source are set. -/
def nowPlaying (lines : List Lyric) : playing Unit Unit :=
  { song := some track, progress := (), stopwatch := (),
    lyrics := some { lines := lines, i := 0, calls := 0 },
    previous := [], current := "", upcoming := [] }

/-- The lines of the end-to-end sample: "la" for 5 s, then "la la" for 5 s. -/
def laLines : List Lyric :=
  [{ Text := "la", Duration := 5 * time.Second },
   { Text := "la la", Duration := 5 * time.Second }]

/-- Three lines of 10 s each. -/
def tenLines : List Lyric :=
  [{ Text := "one", Duration := 10 * time.Second },
   { Text := "two", Duration := 10 * time.Second },
   { Text := "three", Duration := 10 * time.Second }]

/-- Three lines of duration zero. -/
def zeroLines : List Lyric :=
  [{ Text := "one", Duration := 0 }, { Text := "two", Duration := 0 },
   { Text := "three", Duration := 0 }]

/-- Two lines, the second of negative duration: 10 s, then -8 s. -/
def negativeLines : List Lyric :=
  [{ Text := "one", Duration := 10 * time.Second },
   { Text := "two", Duration := -8 * time.Second }]

/-- An update that fails at every call. -/
def failingUpdate : Nat → Option String :=
  fun _ => some "leaderboard unavailable"

/-- A song view on which track 2 is current. -/
def onTrackTwo : Model Unit Unit :=
  { idle with current := { idle.current with song := some { track with ID := 2 } } }

/-- A lyric event of track 1. -/
def staleEvent : msgLyrics :=
  { song := track, previous := ["la"], current := "la la", upcoming := [],
    startNext := t0 + 10 * time.Second, done := false }

/-- The length of a day. -/
def day : Int := 24 * time.Hour

/-- A zess view holding two days. -/
def zess : ZessModel :=
  { lastScanID := 3, scans := [{ date := 19000 * day, amount := 2 },
                               { date := 19001 * day, amount := 1 }],
    totalScans := 40 }

/-- A scan message that starts on the last day of `zess` and adds a new day. -/
def scanMsg : ZessScanMsg :=
  { lastScanID := 7, scans := [{ date := 19001 * day, amount := 3 },
                               { date := 19002 * day, amount := 1 }] }

end sample

/-! # Theorems -/

/-! ## The lyric source -/

namespace lyrics

theorem drop_cons_get? {α : Type} (l : List α) (i : Nat) (x : α) (rest : List α)
    (h : l.drop i = x :: rest) : l.get? i = some x ∧ l.drop (i + 1) = rest := by
  induction l generalizing i with
  | nil => simp at h
  | cons a t ih =>
    cases i with
    | zero =>
      simp at h
      simp [h.1, h.2]
    | succ n =>
      simp at h
      simpa using ih n h

theorem drop_nil_get? {α : Type} (l : List α) (i : Nat) (h : l.drop i = []) :
    l.get? i = none := by
  rw [List.drop_eq_nil_iff] at h
  simp [List.get?_eq_none, h]

/-- While lines remain, `Next` hands out the first of them. -/
theorem Next_of_cons (ly : Lyrics) (x : Lyric) (rest : List Lyric)
    (h : ly.remaining = x :: rest) :
    ly.Next = (some x, { ly with i := ly.i + 1, calls := ly.calls + 1 }) := by
  unfold Lyrics.remaining at h
  unfold Lyrics.Next
  rw [(drop_cons_get? _ _ _ _ h).1]

theorem remaining_after_Next (ly : Lyrics) (x : Lyric) (rest : List Lyric)
    (h : ly.remaining = x :: rest) :
    Lyrics.remaining { ly with i := ly.i + 1, calls := ly.calls + 1 } = rest := by
  unfold Lyrics.remaining at h ⊢
  exact (drop_cons_get? _ _ _ _ h).2

/-- When no line remains, `Next` reports absence. -/
theorem Next_of_nil (ly : Lyrics) (h : ly.remaining = []) :
    ly.Next = (none, { ly with calls := ly.calls + 1 }) := by
  unfold Lyrics.remaining at h
  unfold Lyrics.Next
  rw [drop_nil_get? _ _ h]

theorem Next_calls (ly : Lyrics) : ly.Next.2.calls = ly.calls + 1 := by
  unfold Lyrics.Next
  cases ly.lines.get? ly.i <;> rfl

end lyrics

/-! ## The song view -/

namespace song

open lyrics

theorem totalDuration_cons (x : Lyric) (t : List Lyric) :
    totalDuration (x :: t) = x.Duration + totalDuration t := by
  simp [totalDuration]

theorem totalDuration_nonneg (ls : List Lyric) (h : ∀ l ∈ ls, 0 ≤ l.Duration) :
    0 ≤ totalDuration ls := by
  unfold totalDuration
  apply List.sum_nonneg
  intro x hx
  rw [List.mem_map] at hx
  obtain ⟨l, hl, rfl⟩ := hx
  exact h l hl

theorem succ_of_length_lt {n fuel : Nat} (h : n < fuel) : ∃ f, fuel = f + 1 :=
  ⟨fuel - 1, by omega⟩

/-- The loop runs to the end of the lyric source when the instant reached after the last
line is still in the past. -/
theorem catchUp_finished (now : Int) :
    ∀ (rest : List Lyric) (fuel : Nat) (ly : Lyrics) (st : Int),
      ly.remaining = rest → (∀ l ∈ rest, 0 ≤ l.Duration) →
      st + totalDuration rest < now → rest.length < fuel →
      catchUp now fuel ly st =
        .ok (none, { ly with i := ly.i + rest.length, calls := ly.calls + rest.length + 1 }) := by
  intro rest
  induction rest with
  | nil =>
    intro fuel ly st hrem _ hlt hfuel
    obtain ⟨f, rfl⟩ := succ_of_length_lt hfuel
    have hst : st < now := by simpa [totalDuration] using hlt
    simp [catchUp, hst, Next_of_nil ly hrem]
  | cons x t ih =>
    intro fuel ly st hrem hnn hlt hfuel
    obtain ⟨f, rfl⟩ := succ_of_length_lt hfuel
    have hx : (0 : Int) ≤ x.Duration := hnn x (List.mem_cons_self _ _)
    have ht : 0 ≤ totalDuration t :=
      totalDuration_nonneg t (fun l hl => hnn l (List.mem_cons_of_mem _ hl))
    rw [totalDuration_cons] at hlt
    have hst : st < now := by omega
    have hrec := ih f { ly with i := ly.i + 1, calls := ly.calls + 1 } (st + x.Duration)
      (remaining_after_Next ly x t hrem) (fun l hl => hnn l (List.mem_cons_of_mem _ hl))
      (by omega) (by simp only [List.length_cons] at hfuel; omega)
    simp only [catchUp, hst, if_true, Next_of_cons ly x t hrem, hrec]
    simp only [List.length_cons]
    congr 3 <;> omega

/-- The loop stops at the first instant that is not in the past: after the lines `pre`,
when every proper initial part of `pre` ends in the past and `pre` itself does not. -/
theorem catchUp_live (now : Int) :
    ∀ (pre : List Lyric) (fuel : Nat) (ly : Lyrics) (st : Int) (post : List Lyric),
      ly.remaining = pre ++ post →
      (∀ j, j < pre.length → st + totalDuration (pre.take j) < now) →
      ¬ st + totalDuration pre < now → pre.length < fuel →
      catchUp now fuel ly st =
        .ok (some (st + totalDuration pre),
             { ly with i := ly.i + pre.length, calls := ly.calls + pre.length }) := by
  intro pre
  induction pre with
  | nil =>
    intro fuel ly st post _ _ hstop hfuel
    obtain ⟨f, rfl⟩ := succ_of_length_lt hfuel
    have hst : ¬ st < now := by simpa [totalDuration] using hstop
    simp [catchUp, hst, totalDuration]
  | cons x t ih =>
    intro fuel ly st post hrem hpast hstop hfuel
    obtain ⟨f, rfl⟩ := succ_of_length_lt hfuel
    have hst : st < now := by simpa [totalDuration] using hpast 0 (by simp)
    rw [totalDuration_cons] at hstop
    have hrec := ih f { ly with i := ly.i + 1, calls := ly.calls + 1 } (st + x.Duration) post
      (remaining_after_Next ly x (t ++ post) hrem)
      (by
        intro j hj
        have := hpast (j + 1) (by simp only [List.length_cons]; omega)
        rw [List.take_succ_cons, totalDuration_cons] at this
        omega)
      (by omega) (by simp only [List.length_cons] at hfuel; omega)
    simp only [catchUp, hst, if_true, Next_of_cons ly x (t ++ post) hrem, hrec]
    rw [totalDuration_cons, ← add_assoc]
    simp only [List.length_cons]
    congr 3 <;> omega

/-- The loop always ends, after at most one call of `Next` more than there are lines
left, whatever the durations and the clock. -/
theorem catchUp_total (now : Int) :
    ∀ (rest : List Lyric) (fuel : Nat) (ly : Lyrics) (st : Int),
      ly.remaining = rest → rest.length < fuel →
      ∃ out ly1, catchUp now fuel ly st = .ok (out, ly1) ∧
        ly1.calls ≤ ly.calls + rest.length + 1 := by
  intro rest
  induction rest with
  | nil =>
    intro fuel ly st hrem hfuel
    obtain ⟨f, rfl⟩ := succ_of_length_lt hfuel
    by_cases hst : st < now
    · exact ⟨none, { ly with calls := ly.calls + 1 },
        by simp [catchUp, hst, Next_of_nil ly hrem], by simp⟩
    · exact ⟨some st, ly, by simp [catchUp, hst], by simp⟩
  | cons x t ih =>
    intro fuel ly st hrem hfuel
    obtain ⟨f, rfl⟩ := succ_of_length_lt hfuel
    by_cases hst : st < now
    · obtain ⟨out, ly1, hrun, hcalls⟩ :=
        ih f { ly with i := ly.i + 1, calls := ly.calls + 1 } (st + x.Duration)
          (remaining_after_Next ly x t hrem) (by simp only [List.length_cons] at hfuel; omega)
      refine ⟨out, ly1, ?_, ?_⟩
      · simp only [catchUp, hst, if_true, Next_of_cons ly x t hrem, hrun]
      · simp only [List.length_cons] at hcalls ⊢
        omega
    · exact ⟨some st, ly, by simp [catchUp, hst], by simp; omega⟩

/-- The `msgPlaying` case when the first `Next` reports absence. -/
theorem Update_msgPlaying_absent {PM SW : Type} [Inhabited PM] [Inhabited SW]
    (fuel : Nat) (now : Int) (m : Model PM SW) (p : playing PM SW) (s : dto.Song)
    (ly ly1 : Lyrics) (hs : p.song = some s) (hl : p.lyrics = some ly)
    (hnext : ly.Next = (none, ly1)) :
    Model.Update fuel now m (.msgPlaying p) =
      .ok ⟨{ m with history := pushHistory m.history s.Title, current := playing.zero },
           .stopwatchReset default, some ly1⟩ := by
  simp only [Model.Update, deref, hs, hl, bind, Except.bind, hnext]
  rfl

/-- The `msgPlaying` case when the loop runs into the end of the lyric source. -/
theorem Update_msgPlaying_late {PM SW : Type} [Inhabited PM] [Inhabited SW]
    (fuel : Nat) (now : Int) (m : Model PM SW) (p : playing PM SW) (s : dto.Song)
    (ly ly1 ly2 : Lyrics) (l : Lyric) (hs : p.song = some s) (hl : p.lyrics = some ly)
    (hnext : ly.Next = (some l, ly1))
    (hrun : catchUp now fuel ly1 (s.CreatedAt + l.Duration) = .ok (none, ly2)) :
    Model.Update fuel now m (.msgPlaying p) =
      .ok ⟨{ m with history := pushHistory m.history s.Title, current := playing.zero },
           .stopwatchReset default, some ly2⟩ := by
  simp only [Model.Update, deref, hs, hl, bind, Except.bind, hnext, hrun]
  rfl

/-- The `msgPlaying` case when the loop ends by its condition, at the instant `due`. -/
theorem Update_msgPlaying_live {PM SW : Type} [Inhabited PM] [Inhabited SW]
    (fuel : Nat) (now : Int) (m : Model PM SW) (p : playing PM SW) (s : dto.Song)
    (ly ly1 ly2 : Lyrics) (l : Lyric) (due : Int)
    (hs : p.song = some s) (hl : p.lyrics = some ly)
    (hnext : ly.Next = (some l, ly1))
    (hrun : catchUp now fuel ly1 (s.CreatedAt + l.Duration) = .ok (some due, ly2)) :
    Model.Update fuel now m (.msgPlaying p) =
      .ok ⟨{ m with
              history := pushHistory m.history s.Title,
              current := { p with lyrics := some ly2,
                                  upcoming := lyricsToString (ly2.Upcoming upcomingAmount) } },
           .batch
             (updateLyrics now
               { p with lyrics := some ly2,
                        upcoming := lyricsToString (ly2.Upcoming upcomingAmount) } due)
             (.stopwatchStart p.stopwatch (time.Sub now s.CreatedAt)),
           some ly2⟩ := by
  simp only [Model.Update, deref, hs, hl, bind, Except.bind, hnext, hrun]

/-- The timer callback when `Next` hands out a line. -/
theorem updateLyricsTick_line {PM SW : Type}
    (pl : playing PM SW) (s : dto.Song) (ly ly1 : Lyrics) (l : Lyric) (start fired : Int)
    (hs : pl.song = some s) (hl : pl.lyrics = some ly) (hnext : ly.Next = (some l, ly1)) :
    updateLyricsTick pl start fired =
      .ok ({ song := s, previous := lyricsToString (ly1.Previous previousAmount),
             current := l.Text, upcoming := lyricsToString (ly1.Upcoming upcomingAmount),
             startNext := start + l.Duration, done := false }, ly1) := by
  simp only [updateLyricsTick, deref, hs, hl, bind, Except.bind, hnext]

/-- The timer callback when `Next` reports absence. -/
theorem updateLyricsTick_absent {PM SW : Type}
    (pl : playing PM SW) (s : dto.Song) (ly ly1 : Lyrics) (start fired : Int)
    (hs : pl.song = some s) (hl : pl.lyrics = some ly) (hnext : ly.Next = (none, ly1)) :
    updateLyricsTick pl start fired =
      .ok ({ song := s, previous := [], current := "", upcoming := [], startNext := 0,
             done := true }, ly1) := by
  simp only [updateLyricsTick, deref, hs, hl, bind, Except.bind, hnext]

/-- What the `msgPlaying` case leaves behind when it lands on a line: the lines
`l1 :: pre` are consumed, where `l1 :: pre` is the shortest initial part of the remaining
lines that does not end in the past. The upcoming texts and the due instant are those of
the line reached; the current text and the previous texts stay as the message carried
them. -/
theorem catch_up_live_state {PM SW : Type} [Inhabited PM] [Inhabited SW]
    (fuel : Nat) (now : Int) (m : Model PM SW) (p : playing PM SW) (s : dto.Song)
    (ly : Lyrics) (l1 : Lyric) (pre post : List Lyric)
    (hs : p.song = some s) (hl : p.lyrics = some ly)
    (hrem : ly.remaining = l1 :: pre ++ post)
    (hpast : ∀ j, 1 ≤ j → j < (l1 :: pre).length →
      s.CreatedAt + totalDuration ((l1 :: pre).take j) < now)
    (hstop : ¬ s.CreatedAt + totalDuration (l1 :: pre) < now)
    (hfuel : (l1 :: pre).length ≤ fuel) :
    Model.Update fuel now m (.msgPlaying p) =
      .ok ⟨{ m with
              history := pushHistory m.history s.Title,
              current :=
                { p with
                    lyrics := some { ly with i := ly.i + (l1 :: pre).length,
                                             calls := ly.calls + (l1 :: pre).length },
                    upcoming := lyricsToString (post.take upcomingAmount) } },
           .batch
             (updateLyrics now
               { p with
                   lyrics := some { ly with i := ly.i + (l1 :: pre).length,
                                            calls := ly.calls + (l1 :: pre).length },
                   upcoming := lyricsToString (post.take upcomingAmount) }
               (s.CreatedAt + totalDuration (l1 :: pre)))
             (.stopwatchStart p.stopwatch (time.Sub now s.CreatedAt)),
           some { ly with i := ly.i + (l1 :: pre).length,
                          calls := ly.calls + (l1 :: pre).length }⟩ := by
  have hrem1 : ly.remaining = l1 :: (pre ++ post) := by simpa using hrem
  have hstop1 : ¬ (s.CreatedAt : Int) + totalDuration (l1 :: pre) < now := hstop
  have hrun := catchUp_live now pre fuel { ly with i := ly.i + 1, calls := ly.calls + 1 }
    (s.CreatedAt + l1.Duration) post (remaining_after_Next ly l1 (pre ++ post) hrem1)
    (by
      intro j hj
      have hj1 : (s.CreatedAt : Int) + totalDuration ((l1 :: pre).take (j + 1)) < now :=
        hpast (j + 1) (by omega) (by simp only [List.length_cons]; omega)
      rw [List.take_succ_cons, totalDuration_cons] at hj1
      omega)
    (by rw [totalDuration_cons] at hstop1; omega)
    (by simp only [List.length_cons] at hfuel; omega)
  have hsrc :
      ({ ly with i := ly.i + 1 + pre.length, calls := ly.calls + 1 + pre.length } : Lyrics) =
        { ly with i := ly.i + (l1 :: pre).length, calls := ly.calls + (l1 :: pre).length } := by
    simp only [List.length_cons]
    congr 1 <;> omega
  have hdue : s.CreatedAt + l1.Duration + totalDuration pre =
      s.CreatedAt + totalDuration (l1 :: pre) := by
    rw [totalDuration_cons, add_assoc]
  have hup :
      Lyrics.Upcoming
          { ly with i := ly.i + (l1 :: pre).length, calls := ly.calls + (l1 :: pre).length }
          upcomingAmount =
        post.take upcomingAmount := by
    unfold Lyrics.Upcoming
    unfold Lyrics.remaining at hrem
    show List.take upcomingAmount (List.drop (ly.i + (l1 :: pre).length) ly.lines) = _
    rw [← List.drop_drop, hrem, List.drop_left]
  simp only [hsrc, hdue] at hrun
  rw [Update_msgPlaying_live fuel now m p s ly _ _ l1 _ hs hl (Next_of_cons ly l1 _ hrem1) hrun,
    hup]

end song

namespace song

open lyrics

/-- C1. Staleness filtering: when a track `b` is current and a lyric event (advance or
finished) carries a track with another ID, `Model.Update` returns the model unchanged
and the nil command. -/
theorem stale_lyrics_event_dropped {PM SW : Type} [Inhabited PM] [Inhabited SW]
    (fuel : Nat) (now : Int) (m : Model PM SW) (b : dto.Song) (ev : msgLyrics)
    (hcur : m.current.song = some b) (hstale : ev.song.ID ≠ b.ID) :
    Model.Update fuel now m (.msgLyrics ev) = .ok ⟨m, .nil, none⟩ := by
  simp [Model.Update, deref, hcur, hstale, bind, Except.bind]

/-- C1 at a concrete input: an advance event of track 1 delivered while track 2 is
current. -/
theorem stale_lyrics_event_dropped_witness :
    sample.onTrackTwo.current.song = some { sample.track with ID := 2 } ∧
    sample.staleEvent.song.ID ≠ ({ sample.track with ID := 2 } : dto.Song).ID ∧
    Model.Update 0 (sample.t0 + 10 * time.Second) sample.onTrackTwo
        (.msgLyrics sample.staleEvent) =
      .ok ⟨sample.onTrackTwo, .nil, none⟩ :=
  ⟨rfl, by decide,
    stale_lyrics_event_dropped 0 (sample.t0 + 10 * time.Second) sample.onTrackTwo
      { sample.track with ID := 2 } sample.staleEvent rfl (by decide)⟩

/-- C2 as stated fails when a line has a negative duration: the lines (10 s, -8 s) handled
3 s after the start of the track have a sum of durations of 2 s, below the time elapsed,
yet `Model.Update` stops at the first line, whose end at `t0 + 10 s` is not in the past:
the track stays current and a lyric timer is scheduled. -/
theorem catch_up_negative_duration_stays_live :
    (sample.t0 + 3 * time.Second) - sample.track.CreatedAt >
      totalDuration (Lyrics.remaining { lines := sample.negativeLines, i := 0, calls := 0 }) ∧
    ∃ r, Model.Update 3 (sample.t0 + 3 * time.Second) sample.idle
        (.msgPlaying (sample.nowPlaying sample.negativeLines)) = .ok r ∧
      r.model.current ≠ playing.zero ∧
      r.model.current.song = some sample.track ∧
      r.model.current.lyrics = some { lines := sample.negativeLines, i := 1, calls := 1 } ∧
      r.cmd = .batch
        (.tick (7 * time.Second) r.model.current (sample.t0 + 10 * time.Second))
        (.stopwatchStart () (3 * time.Second)) :=
  ⟨by decide, _, rfl, by decide, rfl, rfl, rfl⟩

/-- C2, amended. Catch-up lands in FINISHED when the track is already over: when the lyric
source of a new-track message still yields the lines `ly.remaining`, every one of them of
non-negative duration, and the time elapsed since the start of the track
exceeds the sum of their durations, `Model.Update` clears the currently-playing slot (no
track, no lyric source, no lyric text) and returns the stopwatch reset, not a lyric
timer. The budget of the loop only has to exceed the number of lines. -/
theorem catch_up_finished {PM SW : Type} [Inhabited PM] [Inhabited SW]
    (fuel : Nat) (now : Int) (m : Model PM SW) (p : playing PM SW) (s : dto.Song)
    (ly : Lyrics) (hs : p.song = some s) (hl : p.lyrics = some ly)
    (hdur : ∀ l ∈ ly.remaining, 0 ≤ l.Duration)
    (hover : now - s.CreatedAt > totalDuration ly.remaining)
    (hfuel : ly.remaining.length < fuel) :
    Model.Update fuel now m (.msgPlaying p) =
      .ok ⟨{ m with history := pushHistory m.history s.Title, current := playing.zero },
           .stopwatchReset default,
           some { ly with i := ly.i + ly.remaining.length,
                          calls := ly.calls + ly.remaining.length + 1 }⟩ := by
  cases hrem : ly.remaining with
  | nil =>
    simp [Model.Update, deref, hs, hl, bind, Except.bind, Next_of_nil ly hrem, playing.zero]
  | cons x t =>
    rw [hrem] at hdur hover hfuel
    rw [totalDuration_cons] at hover
    have hrun := catchUp_finished now t fuel { ly with i := ly.i + 1, calls := ly.calls + 1 }
      (s.CreatedAt + x.Duration) (remaining_after_Next ly x t hrem)
      (fun l hl => hdur l (List.mem_cons_of_mem _ hl))
      (by omega)
      (by simp only [List.length_cons] at hfuel; omega)
    rw [Update_msgPlaying_late fuel now m p s ly _ _ x hs hl (Next_of_cons ly x t hrem) hrun]
    simp only [List.length_cons]
    congr 4 <;> omega

/-- C2 at the input of the spec: the track started 37 s ago and has three lines of 10 s
each. -/
theorem catch_up_finished_witness :
    (∀ l ∈ Lyrics.remaining { lines := sample.tenLines, i := 0, calls := 0 },
      0 ≤ l.Duration) ∧
    (sample.t0 + 37 * time.Second) - sample.track.CreatedAt >
      totalDuration (Lyrics.remaining { lines := sample.tenLines, i := 0, calls := 0 }) ∧
    Model.Update 4 (sample.t0 + 37 * time.Second) sample.idle
        (.msgPlaying (sample.nowPlaying sample.tenLines)) =
      .ok ⟨{ sample.idle with
              history := pushHistory sample.idle.history sample.track.Title,
              current := playing.zero },
           .stopwatchReset default,
           some { lines := sample.tenLines, i := 3, calls := 4 }⟩ :=
  ⟨by decide, by decide,
    catch_up_finished 4 (sample.t0 + 37 * time.Second) sample.idle
      (sample.nowPlaying sample.tenLines) sample.track
      { lines := sample.tenLines, i := 0, calls := 0 } rfl rfl (by decide) (by decide)
      (by decide)⟩

/-- C3, the code at the end-to-end sample of the spec: track 1 started at `t0` with
the lines ("la", 5 s) and ("la la", 5 s), handled at `t0 + 6 s`. The upcoming texts are
empty and the timer is due at `t0 + 10 s`, as the spec says; but the current text is
empty and there are no previous texts, where the spec says "la la" and ["la"]; and the
timer, when it fires, reports the track finished, so that "la la" is never shown. -/
theorem catch_up_live_leaves_current_unset :
    ∃ r, Model.Update 2 (sample.t0 + 6 * time.Second) sample.idle
        (.msgPlaying (sample.nowPlaying sample.laLines)) = .ok r ∧
      r.model.current.song = some sample.track ∧
      r.model.current.lyrics = some { lines := sample.laLines, i := 2, calls := 2 } ∧
      r.model.current.current = "" ∧
      r.model.current.previous = [] ∧
      r.model.current.upcoming = [] ∧
      r.cmd = .batch
        (.tick (4 * time.Second) r.model.current (sample.t0 + 10 * time.Second))
        (.stopwatchStart () (6 * time.Second)) ∧
      updateLyricsTick r.model.current (sample.t0 + 10 * time.Second)
          (sample.t0 + 10 * time.Second) =
        .ok ({ song := sample.track, previous := [], current := "", upcoming := [],
               startNext := 0, done := true },
             { lines := sample.laLines, i := 2, calls := 3 }) :=
  ⟨_, rfl, rfl, rfl, rfl, rfl, rfl, rfl, rfl⟩

end song

namespace song

open lyrics

/-- C4. The transition LIVE to LIVE: the timer callback built by `updateLyrics(song, s)`
calls `Next` exactly once (the lyric source it leaves is the one `Next` returns, with one
call more on its counter). The event it produces carries the track. If `Next` returned a
line `l`, the event has the text of `l` as current line, `Previous(5)` and `Upcoming(10)`
taken after the advance, `done = false` and `startNext = s + l.Duration`, whatever the
instant `fired` at which the timer really fires. If `Next` returned no line, the event
has `done = true`, and handling it while that track is current clears the
currently-playing slot. -/
theorem lyrics_tick_event {PM SW : Type} [Inhabited PM] [Inhabited SW]
    (pl : playing PM SW) (s : dto.Song) (ly : Lyrics) (start fired : Int)
    (hs : pl.song = some s) (hl : pl.lyrics = some ly) :
    ∃ ev, updateLyricsTick pl start fired = .ok (ev, ly.Next.2) ∧
      ly.Next.2.calls = ly.calls + 1 ∧
      ev.song = s ∧
      (∀ l, ly.Next.1 = some l →
        ev.current = l.Text ∧
        ev.previous = lyricsToString (ly.Next.2.Previous 5) ∧
        ev.upcoming = lyricsToString (ly.Next.2.Upcoming 10) ∧
        ev.done = false ∧
        ev.startNext = start + l.Duration) ∧
      (ly.Next.1 = none →
        ev.done = true ∧
        ∀ (fuel : Nat) (now : Int) (m : Model PM SW) (cur : dto.Song),
          m.current.song = some cur → cur.ID = s.ID →
          Model.Update fuel now m (.msgLyrics ev) =
            .ok ⟨{ m with current := playing.zero }, .stopwatchReset default, none⟩) := by
  rcases hN : ly.Next with ⟨_ | l, ly1⟩
  · refine ⟨_, updateLyricsTick_absent pl s ly ly1 start fired hs hl hN, ?_, rfl, ?_, ?_⟩
    · simpa [hN] using Next_calls ly
    · intro l h
      simp at h
    · intro _
      refine ⟨rfl, ?_⟩
      intro fuel now m cur hm hid
      simp [Model.Update, deref, hm, hid, bind, Except.bind, playing.zero]
  · refine ⟨_, updateLyricsTick_line pl s ly ly1 l start fired hs hl hN, ?_, rfl, ?_, ?_⟩
    · simpa [hN] using Next_calls ly
    · intro l0 h
      simp at h
      subst h
      simp [previousAmount, upcomingAmount]
    · intro h
      simp at h

/-- C4 at a concrete input: the first tick of the track with the lines "la" and "la la",
scheduled for `t0` and fired one second late. -/
theorem lyrics_tick_event_witness :
    ∃ ev, updateLyricsTick (sample.nowPlaying sample.laLines) sample.t0
        (sample.t0 + time.Second) =
        .ok (ev, (Lyrics.Next { lines := sample.laLines, i := 0, calls := 0 }).2) ∧
      (Lyrics.Next { lines := sample.laLines, i := 0, calls := 0 }).2.calls = 0 + 1 ∧
      ev.song = sample.track ∧
      (∀ l, (Lyrics.Next { lines := sample.laLines, i := 0, calls := 0 }).1 = some l →
        ev.current = l.Text ∧
        ev.previous = lyricsToString
          ((Lyrics.Next { lines := sample.laLines, i := 0, calls := 0 }).2.Previous 5) ∧
        ev.upcoming = lyricsToString
          ((Lyrics.Next { lines := sample.laLines, i := 0, calls := 0 }).2.Upcoming 10) ∧
        ev.done = false ∧
        ev.startNext = sample.t0 + l.Duration) ∧
      ((Lyrics.Next { lines := sample.laLines, i := 0, calls := 0 }).1 = none →
        ev.done = true ∧
        ∀ (fuel : Nat) (now : Int) (m : Model Unit Unit) (cur : dto.Song),
          m.current.song = some cur → cur.ID = sample.track.ID →
          Model.Update fuel now m (.msgLyrics ev) =
            .ok ⟨{ m with current := playing.zero }, .stopwatchReset default, none⟩) :=
  lyrics_tick_event (sample.nowPlaying sample.laLines) sample.track
    { lines := sample.laLines, i := 0, calls := 0 } sample.t0
    (sample.t0 + time.Second) rfl rfl

/-- C5, what the code does: a lyric event handled while no track is current (the track
pointer of the view is nil, as at construction, after a finished event, or after a
catch-up that ran past the last line) dereferences the nil pointer, whatever the
event. -/
theorem lyrics_event_without_track_faults {PM SW : Type} [Inhabited PM] [Inhabited SW]
    (fuel : Nat) (now : Int) (m : Model PM SW) (progressNew : PM) (stopwatchNew : SW)
    (history : List String) (ev : msgLyrics) :
    Model.Update fuel now ({ m with current := { m.current with song := none } } : Model PM SW)
        (.msgLyrics ev) = .error .nilDereference ∧
    Model.Update fuel now ({ m with current := playing.zero } : Model PM SW) (.msgLyrics ev) =
      .error .nilDereference ∧
    Model.Update fuel now (NewModel progressNew stopwatchNew history) (.msgLyrics ev) =
      .error .nilDereference := by
  refine ⟨?_, ?_, ?_⟩ <;> simp [Model.Update, deref, bind, Except.bind, playing.zero, NewModel]

/-- C6. The catch-up always ends, within the line count: for a lyric source with
`ly.remaining.length` lines still to yield, of any durations, and any clock value,
handling a new-track message returns (with any budget above the number of lines), makes
at most one call of `Next` more than there are lines, and ends either in FINISHED (slot
cleared, stopwatch reset) or in LIVE (track kept, lyric timer scheduled). -/
theorem catch_up_terminates {PM SW : Type} [Inhabited PM] [Inhabited SW]
    (fuel : Nat) (now : Int) (m : Model PM SW) (p : playing PM SW) (s : dto.Song)
    (ly : Lyrics) (hs : p.song = some s) (hl : p.lyrics = some ly)
    (hfuel : ly.remaining.length < fuel) :
    ∃ r src, Model.Update fuel now m (.msgPlaying p) = .ok r ∧
      r.source = some src ∧ src.calls ≤ ly.calls + (ly.remaining.length + 1) ∧
      ((r.model.current = playing.zero ∧ r.cmd = .stopwatchReset default) ∨
       (∃ due,
          r.model.current =
            { p with lyrics := some src,
                     upcoming := lyricsToString (src.Upcoming upcomingAmount) } ∧
          r.cmd = .batch (updateLyrics now r.model.current due)
            (.stopwatchStart p.stopwatch (time.Sub now s.CreatedAt)))) := by
  cases hrem : ly.remaining with
  | nil =>
    exact ⟨_, _, Update_msgPlaying_absent fuel now m p s ly _ hs hl (Next_of_nil ly hrem), rfl,
      by simp, Or.inl ⟨rfl, rfl⟩⟩
  | cons x t =>
    rw [hrem] at hfuel
    obtain ⟨out, ly2, hrun, hcalls⟩ :=
      catchUp_total now t fuel { ly with i := ly.i + 1, calls := ly.calls + 1 }
        (s.CreatedAt + x.Duration) (remaining_after_Next ly x t hrem)
        (by simp only [List.length_cons] at hfuel; omega)
    have hbound : ly2.calls ≤ ly.calls + ((x :: t).length + 1) := by
      simp only [List.length_cons] at hcalls ⊢
      omega
    cases out with
    | none =>
      exact ⟨_, _, Update_msgPlaying_late fuel now m p s ly _ ly2 x hs hl
        (Next_of_cons ly x t hrem) hrun, rfl, hbound, Or.inl ⟨rfl, rfl⟩⟩
    | some due =>
      exact ⟨_, _, Update_msgPlaying_live fuel now m p s ly _ ly2 x due hs hl
        (Next_of_cons ly x t hrem) hrun, rfl, hbound, Or.inr ⟨due, rfl, rfl⟩⟩

/-- C6 at a concrete input: three lines of duration zero, handled one second after the
start of the track. -/
theorem catch_up_terminates_witness :
    (Lyrics.remaining { lines := sample.zeroLines, i := 0, calls := 0 }).length < 4 ∧
    ∃ r src, Model.Update 4 (sample.t0 + time.Second) sample.idle
        (.msgPlaying (sample.nowPlaying sample.zeroLines)) = .ok r ∧
      r.source = some src ∧
      src.calls ≤ 0 +
        ((Lyrics.remaining { lines := sample.zeroLines, i := 0, calls := 0 }).length + 1) ∧
      ((r.model.current = playing.zero ∧ r.cmd = .stopwatchReset default) ∨
       (∃ due,
          r.model.current =
            { sample.nowPlaying sample.zeroLines with
                lyrics := some src,
                upcoming := lyricsToString (src.Upcoming upcomingAmount) } ∧
          r.cmd = .batch (updateLyrics (sample.t0 + time.Second) r.model.current due)
            (.stopwatchStart (sample.nowPlaying sample.zeroLines).stopwatch
              (time.Sub (sample.t0 + time.Second) sample.track.CreatedAt)))) :=
  ⟨by decide,
    catch_up_terminates 4 (sample.t0 + time.Second) sample.idle
      (sample.nowPlaying sample.zeroLines) sample.track
      { lines := sample.zeroLines, i := 0, calls := 0 } rfl rfl (by decide)⟩

end song

/-! ## The zess view -/

namespace view

theorem get?_concat_length {α : Type} (init : List α) (last : α) :
    (init ++ [last]).get? init.length = some last := by
  induction init with
  | nil => rfl
  | cons a t ih => simp [ih]

theorem set_concat_length {α : Type} (init : List α) (last x : α) :
    (init ++ [last]).set init.length x = init ++ [x] := by
  induction init with
  | nil => rfl
  | cons a t ih => simp [ih]

theorem mergeScan_later (zs : List zessDayScan) (m : zessDayScan)
    (h : ∀ last ∈ zs.getLast?, last.date < m.date) : mergeScan zs m = zs ++ [m] := by
  unfold mergeScan
  cases hl : zs.getLast? with
  | none => rfl
  | some last =>
    have : m.date > last.date := h last (by simp [hl])
    simp [this]

theorem mergeScan_same_day (init : List zessDayScan) (last m : zessDayScan)
    (h : m.date = last.date) :
    mergeScan (init ++ [last]) m =
      init ++ [{ last with amount := wrap64 (last.amount + m.amount) }] := by
  unfold mergeScan
  rw [List.getLast?_concat]
  have hnot : ¬ last.date > last.date := lt_irrefl _
  simp only [h, hnot, if_false, List.length_append, List.length_singleton, addToDay,
    get?_concat_length, h, if_true, set_concat_length]

theorem foldl_mergeScan_later :
    ∀ (ms zs : List zessDayScan), increasingByDate ms →
      (∀ last ∈ zs.getLast?, ∀ first ∈ ms.head?, last.date < first.date) →
      ms.foldl mergeScan zs = zs ++ ms := by
  intro ms
  induction ms with
  | nil => intro zs _ _; simp
  | cons m t ih =>
    intro zs hm hord
    have h1 : mergeScan zs m = zs ++ [m] :=
      mergeScan_later zs m (fun last hl => hord last hl m (by simp))
    rw [List.foldl_cons, h1, ih (zs ++ [m]) hm.tail]
    · simp
    · intro last hl first hf
      rw [List.getLast?_concat] at hl
      cases hl
      exact hm.rel_head? hf


theorem foldl_mergeScan_cases (zs ms : List zessDayScan) (hm : increasingByDate ms)
    (hord : ∀ last ∈ zs.getLast?, ∀ first ∈ ms.head?, last.date ≤ first.date) :
    ((∀ last ∈ zs.getLast?, ∀ first ∈ ms.head?, last.date < first.date) ∧
        ms.foldl mergeScan zs = zs ++ ms) ∨
    (∃ init last first rest, zs = init ++ [last] ∧ ms = first :: rest ∧
        first.date = last.date ∧
        ms.foldl mergeScan zs =
          init ++ [{ last with amount := wrap64 (last.amount + first.amount) }] ++ rest) := by
  cases ms with
  | nil =>
    left
    exact ⟨by simp, by simp⟩
  | cons first rest =>
    have hlast : zs.getLast? = none ∨ ∃ l, zs.getLast? = some l := by
      cases zs.getLast? <;> simp
    rcases hlast with hl | ⟨last, hl⟩
    · left
      have hstrict : ∀ last ∈ zs.getLast?, ∀ f ∈ (first :: rest).head?, last.date < f.date := by
        simp [hl]
      exact ⟨hstrict, foldl_mergeScan_later _ _ hm hstrict⟩
    · obtain ⟨init, hinit⟩ := List.getLast?_eq_some_iff.1 hl
      have hle : last.date ≤ first.date := hord last (by simp [hl]) first (by simp)
      rcases lt_or_eq_of_le hle with hlt | heq
      · left
        have hstrict : ∀ l ∈ zs.getLast?, ∀ f ∈ (first :: rest).head?, l.date < f.date := by
          intro l hmem f hf
          simp [hl] at hmem
          simp at hf
          subst hmem hf
          exact hlt
        exact ⟨hstrict, foldl_mergeScan_later _ _ hm hstrict⟩
      · right
        refine ⟨init, last, first, rest, hinit, rfl, heq.symm, ?_⟩
        rw [List.foldl_cons, hinit, mergeScan_same_day init last first heq.symm]
        apply foldl_mergeScan_later _ _ hm.tail
        intro l hmem f hf
        rw [List.getLast?_concat] at hmem
        cases hmem
        show last.date < f.date
        rw [heq]
        exact hm.rel_head? hf

theorem totalAmount_append (a b : List zessDayScan) :
    totalAmount (a ++ b) = totalAmount a + totalAmount b := by
  simp [totalAmount]

theorem totalAmount_nonneg (a : List zessDayScan) (h : ∀ s ∈ a, 0 ≤ s.amount) :
    0 ≤ totalAmount a := by
  unfold totalAmount
  apply List.sum_nonneg
  intro x hx
  rw [List.mem_map] at hx
  obtain ⟨s, hs, rfl⟩ := hx
  exact h s hs

/-- C10. Merging a scan message whose days arrive in order: when the per-day list of the
view and the scans of the message are strictly increasing by date and the message does
not start before the last day of the view, `ZessModel.Update` yields a list that is again
strictly increasing by date; its total amount is the old total plus the sum of the
amounts of the message, as `int64` values in general and as integers when the amounts
are non-negative and their sum is below 2^63 (so that the one addition the merge makes
cannot wrap); `lastScanID` becomes that of the message and `totalScans` is unchanged. -/
theorem zess_merge_in_order (z : ZessModel) (msg : ZessScanMsg)
    (hz : increasingByDate z.scans) (hm : increasingByDate msg.scans)
    (hord : ∀ last ∈ z.scans.getLast?, ∀ first ∈ msg.scans.head?, last.date ≤ first.date) :
    increasingByDate (z.Update (.ZessScanMsg msg)).scans ∧
    wrap64 (totalAmount (z.Update (.ZessScanMsg msg)).scans) =
      wrap64 (totalAmount z.scans + totalAmount msg.scans) ∧
    ((∀ s ∈ z.scans, 0 ≤ s.amount) → (∀ s ∈ msg.scans, 0 ≤ s.amount) →
      totalAmount z.scans + totalAmount msg.scans < 2 ^ 63 →
      totalAmount (z.Update (.ZessScanMsg msg)).scans =
        totalAmount z.scans + totalAmount msg.scans) ∧
    (z.Update (.ZessScanMsg msg)).lastScanID = msg.lastScanID ∧
    (z.Update (.ZessScanMsg msg)).totalScans = z.totalScans := by
  have hscans : (z.Update (.ZessScanMsg msg)).scans = msg.scans.foldl mergeScan z.scans := rfl
  rw [hscans]
  refine ⟨?_, ?_, ?_, rfl, rfl⟩
  · rcases foldl_mergeScan_cases z.scans msg.scans hm hord with
      ⟨hstrict, hres⟩ | ⟨init, last, first, rest, hzs, hms, hday, hres⟩
    · rw [hres]
      exact hz.append hm hstrict
    · rw [hres]
      rw [hzs] at hz
      rw [hms] at hm
      unfold increasingByDate at *
      obtain ⟨hinit, -, hlast⟩ := List.chain'_append.1 hz
      refine List.Chain'.append (List.Chain'.append hinit (List.chain'_singleton _) ?_) hm.tail ?_
      · intro x hx y hy
        simp at hy
        subst hy
        exact hlast x hx last (by simp)
      · intro x hx y hy
        rw [List.getLast?_concat] at hx
        cases hx
        show last.date < y.date
        rw [← hday]
        exact hm.rel_head? hy
  · rcases foldl_mergeScan_cases z.scans msg.scans hm hord with
      ⟨-, hres⟩ | ⟨init, last, first, rest, hzs, hms, -, hres⟩
    · rw [hres, totalAmount_append]
    · rw [hres, hzs, hms]
      simp only [totalAmount, List.map_append, List.sum_append, List.map_cons, List.map_nil,
        List.sum_cons, List.sum_nil]
      unfold wrap64
      omega
  · intro hzn hmn hfit
    rcases foldl_mergeScan_cases z.scans msg.scans hm hord with
      ⟨-, hres⟩ | ⟨init, last, first, rest, hzs, hms, -, hres⟩
    · rw [hres, totalAmount_append]
    · have hi : 0 ≤ totalAmount init :=
        totalAmount_nonneg init (fun s hs => hzn s (by rw [hzs]; simp [hs]))
      have hr : 0 ≤ totalAmount rest :=
        totalAmount_nonneg rest (fun s hs => hmn s (by rw [hms]; simp [hs]))
      have hl : 0 ≤ last.amount := hzn last (by rw [hzs]; simp)
      have hf : 0 ≤ first.amount := hmn first (by rw [hms]; simp)
      rw [hres]
      rw [hzs, hms] at hfit ⊢
      simp only [totalAmount, List.map_append, List.sum_append, List.map_cons, List.map_nil,
        List.sum_cons, List.sum_nil] at hi hr hfit ⊢
      unfold wrap64
      norm_num at hfit
      omega

end view

namespace view

/-- C10 at a concrete input: a view holding two days and a message that adds three scans
to the last of them and one scan on a new day. -/
theorem zess_merge_in_order_witness :
    increasingByDate sample.zess.scans ∧ increasingByDate sample.scanMsg.scans ∧
    (∀ last ∈ sample.zess.scans.getLast?, ∀ first ∈ sample.scanMsg.scans.head?,
      last.date ≤ first.date) ∧
    increasingByDate (sample.zess.Update (.ZessScanMsg sample.scanMsg)).scans ∧
    wrap64 (totalAmount (sample.zess.Update (.ZessScanMsg sample.scanMsg)).scans) =
      wrap64 (totalAmount sample.zess.scans + totalAmount sample.scanMsg.scans) ∧
    ((∀ s ∈ sample.zess.scans, 0 ≤ s.amount) →
      (∀ s ∈ sample.scanMsg.scans, 0 ≤ s.amount) →
      totalAmount sample.zess.scans + totalAmount sample.scanMsg.scans < 2 ^ 63 →
      totalAmount (sample.zess.Update (.ZessScanMsg sample.scanMsg)).scans =
        totalAmount sample.zess.scans + totalAmount sample.scanMsg.scans) ∧
    (sample.zess.Update (.ZessScanMsg sample.scanMsg)).lastScanID =
      sample.scanMsg.lastScanID ∧
    (sample.zess.Update (.ZessScanMsg sample.scanMsg)).totalScans =
      sample.zess.totalScans :=
  ⟨by simp [increasingByDate, sample.zess, sample.day, time.Hour],
    by simp [increasingByDate, sample.scanMsg, sample.day, time.Hour],
    by decide,
    zess_merge_in_order sample.zess sample.scanMsg
      (by simp [increasingByDate, sample.zess, sample.day, time.Hour])
      (by simp [increasingByDate, sample.scanMsg, sample.day, time.Hour])
      (by decide)⟩

/-- C7 as stated fails for two of the three pollers: on `sql.ErrNoRows` from
`GetLastScan`, `updateScans` returns a message, and so does `updateSeason` on
`sql.ErrNoRows` from its query. -/
theorem no_rows_still_yields_message :
    updateScans (.error sql.Err.ErrNoRows) (fun _ => .ok []) sample.zess ≠ (none, none) ∧
    updateSeason (.error sql.Err.ErrNoRows) ≠ (none, none) := by
  constructor <;> simp [updateScans, updateSeason]

/-- C7, amended. On `sql.ErrNoRows`, none of the three pollers returns an error.
`updateCurrentSong` returns no message. `updateScans` (no rows from `GetLastScan`) returns
the scan message that repeats the last scan ID of the view and holds no scans, and
`updateSeason` returns the season message marked not valid; handling either leaves the
zess view unchanged. -/
theorem no_rows_is_benign {PM SW : Type} [Inhabited PM] [Inhabited SW]
    (songDTOHistory : List sqlc.GetLastSongFullRow → Option dto.Song)
    (newLRC newPlain : dto.Song → lyrics.Lyrics) (now : Int) (m : song.Model PM SW)
    (getAllScansSinceID : Int → Except sql.Err (List sqlc.Scan)) (z : ZessModel) :
    song.updateCurrentSong (.error sql.Err.ErrNoRows) songDTOHistory newLRC newPlain now m =
      .ok (none, none) ∧
    updateScans (.error sql.Err.ErrNoRows) getAllScansSinceID z =
      (some (.ZessScanMsg { lastScanID := z.lastScanID, scans := [] }), none) ∧
    z.Update (.ZessScanMsg { lastScanID := z.lastScanID, scans := [] }) = z ∧
    updateSeason (.error sql.Err.ErrNoRows) =
      (some (.ZessSeasonMsg { valid := false, amount := 0 }), none) ∧
    z.Update (.ZessSeasonMsg { valid := false, amount := 0 }) = z := by
  refine ⟨?_, ?_, ?_, ?_, ?_⟩
  · simp [song.updateCurrentSong]
  · simp [updateScans]
  · simp [ZessModel.Update]
  · simp [updateSeason]
  · simp [ZessModel.Update]

end view

/-! ## The lyric source constructor -/

namespace lyrics

/-- C8. The variant `New` returns depends on the kind tag alone: it is the synced variant,
`newLRC` applied to the song, exactly when `LyricsType` is the string "synced", and the
plain variant, `newPlain` applied to the song, exactly when it is any other string; the
empty string and the spelling "Synced" give the plain variant. -/
theorem New_dispatch {L P : Type} (newLRC : dto.Song → L) (newPlain : dto.Song → P)
    (song : dto.Song) :
    (New newLRC newPlain song = .synced (newLRC song) ↔ song.LyricsType = "synced") ∧
    (New newLRC newPlain song = .plain (newPlain song) ↔ song.LyricsType ≠ "synced") ∧
    New newLRC newPlain { song with LyricsType := "" } =
      .plain (newPlain { song with LyricsType := "" }) ∧
    New newLRC newPlain { song with LyricsType := "Synced" } =
      .plain (newPlain { song with LyricsType := "Synced" }) ∧
    New newLRC newPlain { song with LyricsType := "SYNCED" } =
      .plain (newPlain { song with LyricsType := "SYNCED" }) := by
  refine ⟨?_, ?_, ?_, ?_, ?_⟩
  · unfold New
    by_cases h : song.LyricsType = "synced" <;> simp [h]
  · unfold New
    by_cases h : song.LyricsType = "synced" <;> simp [h]
  · simp [New]
  · simp [New]
  · simp [New]

end lyrics

/-! ## The periodic worker -/

namespace cmd

theorem runUpdate_phase (update : Nat → Option String) (w : Worker) :
    (runUpdate update w).phase = w.phase := by
  unfold runUpdate
  cases update w.updates <;> rfl

theorem runUpdate_updates (update : Nat → Option String) (w : Worker) :
    (runUpdate update w).updates = w.updates + 1 := by
  unfold runUpdate
  cases update w.updates <;> rfl

theorem run_exited (update : Nat → Option String) (events : List Event) :
    ∀ w : Worker, w.phase = .exited → events.foldl (step update) w = w := by
  induction events with
  | nil => intro w _; rfl
  | cons e t ih =>
    intro w hw
    have hstep : step update w e = w := by
      unfold step
      rw [hw]
    rw [List.foldl_cons, hstep, ih w hw]

theorem run_waiting (update : Nat → Option String) (events : List Event) :
    ∀ w : Worker, w.phase = .waiting →
      ((events.foldl (step update) w).phase = .exited ↔ Event.stop ∈ events) ∧
      (events.foldl (step update) w).updates =
        w.updates + (events.takeWhile (fun e => e = Event.tick)).length := by
  induction events with
  | nil =>
    intro w hw
    simp [hw]
  | cons e t ih =>
    intro w hw
    cases e with
    | tick =>
      have hstep : step update w .tick = runUpdate update w := by
        unfold step
        rw [hw]
      have hph : (runUpdate update w).phase = .waiting := by
        rw [runUpdate_phase, hw]
      obtain ⟨h1, h2⟩ := ih (runUpdate update w) hph
      rw [List.foldl_cons, hstep]
      refine ⟨?_, ?_⟩
      · rw [h1]
        simp
      · rw [h2, runUpdate_updates]
        simp
        omega
    | stop =>
      have hstep : step update w .stop = { w with phase := .exited } := by
        unfold step
        rw [hw]
      rw [List.foldl_cons, hstep, run_exited update t _ rfl]
      simp

/-- C9 as stated fails when the ticker cannot be created: with `interval = 0` the worker
panics in `time.NewTicker` before its first update, whatever the events, so it neither
runs the update once nor waits for a tick. -/
theorem ticker_panics_before_first_update :
    tickerDuration 0 ≤ 0 ∧
    start sample.failingUpdate 0 = .error .nonPositiveTickerInterval ∧
    gamificationPeriodicUpdate sample.failingUpdate 0 [.tick, .tick, .stop] =
      .error .nonPositiveTickerInterval ∧
    ¬ ∃ w, gamificationPeriodicUpdate sample.failingUpdate 0 [.tick, .tick, .stop] = .ok w := by
  refine ⟨by decide, rfl, rfl, ?_⟩
  rintro ⟨w, hw⟩
  cases hw

/-- C9, amended. When the duration of the ticker, `time.Duration(interval) * time.Second`,
is positive, a failing update never interrupts the schedule. Whatever each call of
`gam.Update` returns (`update k` is the error of call `k`, or none): the worker makes one
update before it first waits; a tick taken while waiting makes one more update and leaves
the worker waiting; the stop signal taken while waiting makes it exit, with no update;
so a run of the worker has exited exactly when the stop signal is among the events it
took, and has made one update plus one for each tick before the first stop signal. -/
theorem update_error_keeps_schedule (update : Nat → Option String) (interval : Int)
    (events : List Event) (w : Worker) (hpos : 0 < tickerDuration interval) :
    ∃ w0 r, start update interval = .ok w0 ∧
      w0.phase = .waiting ∧ w0.updates = 1 ∧
      (step update { w with phase := .waiting } .tick).phase = .waiting ∧
      (step update { w with phase := .waiting } .tick).updates = w.updates + 1 ∧
      step update { w with phase := .waiting } .stop = { w with phase := .exited } ∧
      gamificationPeriodicUpdate update interval events = .ok r ∧
      (r.phase = .exited ↔ Event.stop ∈ events) ∧
      r.updates = 1 + (events.takeWhile (fun e => e = Event.tick)).length := by
  have hnot : ¬ tickerDuration interval ≤ 0 := by omega
  have hstart : start update interval =
      .ok (runUpdate update { phase := .waiting, updates := 0, logged := [] }) := by
    unfold start
    rw [if_neg hnot]
  have hs : (runUpdate update { phase := .waiting, updates := 0, logged := [] }).phase =
      .waiting := by
    rw [runUpdate_phase]
  have hu : (runUpdate update { phase := .waiting, updates := 0, logged := [] }).updates =
      1 := by
    rw [runUpdate_updates]
  obtain ⟨h1, h2⟩ := run_waiting update events _ hs
  refine ⟨_, _, hstart, hs, hu, ?_, ?_, rfl, ?_, h1, ?_⟩
  · show (runUpdate update { w with phase := .waiting }).phase = .waiting
    rw [runUpdate_phase]
  · show (runUpdate update { w with phase := .waiting }).updates = w.updates + 1
    rw [runUpdate_updates]
  · unfold gamificationPeriodicUpdate
    rw [hstart]
  · rw [h2, hu]

/-- C9, amended, at a concrete input: an interval of 3600 s, an update that fails at
every call, and the events tick, tick, stop. -/
theorem update_error_keeps_schedule_witness :
    0 < tickerDuration 3600 ∧
    ∃ w0 r, start sample.failingUpdate 3600 = .ok w0 ∧
      w0.phase = .waiting ∧ w0.updates = 1 ∧
      (step sample.failingUpdate
        { ({ phase := .exited, updates := 5, logged := [] } : Worker) with
            phase := .waiting } .tick).phase = .waiting ∧
      (step sample.failingUpdate
        { ({ phase := .exited, updates := 5, logged := [] } : Worker) with
            phase := .waiting } .tick).updates = 5 + 1 ∧
      step sample.failingUpdate
        { ({ phase := .exited, updates := 5, logged := [] } : Worker) with
            phase := .waiting } .stop =
        { ({ phase := .exited, updates := 5, logged := [] } : Worker) with
            phase := .exited } ∧
      gamificationPeriodicUpdate sample.failingUpdate 3600 [.tick, .tick, .stop] = .ok r ∧
      (r.phase = .exited ↔ Event.stop ∈ [Event.tick, Event.tick, Event.stop]) ∧
      r.updates = 1 +
        ([Event.tick, Event.tick, Event.stop].takeWhile (fun e => e = Event.tick)).length :=
  ⟨by decide,
    update_error_keeps_schedule sample.failingUpdate 3600 [.tick, .tick, .stop]
      { phase := .exited, updates := 5, logged := [] } (by decide)⟩

end cmd
